import Mathlib

/-!
Shallow embedding of `src/convert.rs` from the `typst-languagetool` repository:
extraction of plain text with provenance from a laid-out document, and the
reverse lookup turning a flagged offset range back into source ranges.

Modelling conventions:
* `typst::layout::Abs` lengths and `Em` values are modelled as exact rational
  scalars, kept as unnormalized `num/den` fractions (`Sc`) so that all
  arithmetic is kernel-computable; `approx_eq` is the library's
  tolerance-based approximate equality (difference below `1/1000000`),
  expressed by cross-multiplication.
* `Span` is modelled as an opaque token that is either detached or carries a
  file identifier (`FileId` is a `Nat`) plus an opaque number; `Span.id`
  mirrors `typst::syntax::Span::id`.
* `u16` arithmetic that can wrap (`g.span.1 + g.range.len() as u16`) is
  modelled with an explicit `% 65536`.
* Rust panics (out-of-bounds slice in `Mapping::location`, `text.glyphs[0]`
  on an empty glyph list in `Converter::whitespace`) are modelled by `Option`:
  `none` is a panic, `some` a normal return.
-/

/-- An exact scalar (length/coordinate), as an unnormalized fraction with a
positive denominator in every constructed value. Stands for the `f64`-backed
`Abs` and `Em` of the layout library. -/
structure Sc where
  num : Int
  den : Int
  deriving DecidableEq

instance : Add Sc := ⟨fun a b => ⟨a.num * b.den + b.num * a.den, a.den * b.den⟩⟩

instance : Mul Sc := ⟨fun a b => ⟨a.num * b.num, a.den * b.den⟩⟩

instance (n : Nat) : OfNat Sc n := ⟨⟨Int.ofNat n, 1⟩⟩

/-- The tolerance-based approximate equality on lengths/coordinates
(`Abs::approx_eq`): the two values differ by less than `1/1000000` in
absolute value, written by cross-multiplication. -/
def approx_eq (a b : Sc) : Bool :=
  decide ((a.num * b.den - b.num * a.den).natAbs * 1000000 < (a.den * b.den).natAbs)

/-- A point with x/y coordinates (`typst::layout::Point`). -/
structure Point where
  x : Sc
  y : Sc
  deriving DecidableEq

instance : Add Point := ⟨fun p q => ⟨p.x + q.x, p.y + q.y⟩⟩

/-- `Point::zero()`. -/
def Point.zero : Point := ⟨0, 0⟩

/-- A half-open index range (used both for the `Range<u16>` sub-ranges stored
in the mapping and for the `Range<usize>` output ranges of `location`). -/
structure Rg where
  start : Nat
  stop : Nat
  deriving DecidableEq

/-- `Range::len()`: `stop - start` (0 when `start ≥ stop`). -/
def Rg.len (r : Rg) : Nat := r.stop - r.start

/-- A provenance token (`typst::syntax::Span`): either detached or pointing
into a source file identified by a `Nat`, with an opaque payload. -/
inductive Span : Type where
  | detached : Span
  | attached (file : Nat) (tok : Nat) : Span
  deriving DecidableEq

/-- `Span::id`: the file a span points into, `none` for a detached span. -/
def Span.id : Span → Option Nat
  | .detached => none
  | .attached f _ => some f

/-- Wrapping 16-bit addition, for `g.span.1 + g.range.len() as u16`. -/
def u16add (a b : Nat) : Nat := (a + b) % 65536

/-- The provenance mapping: one `(span, sub-range)` entry per UTF-16 code
unit of the associated extracted text. -/
structure Mapping where
  chars : List (Span × Rg)
  deriving DecidableEq

/-- Modelled from the spec: `crate::Suggestion` lives outside `src/`; the spec
describes it as a half-open offset range [start, end) into one chunk's text,
in the mapping's indexing unit. Only its two bounds are used in
`Mapping::location` (as slice indices); the `end` bound is called `stop`
because `end` is a Lean keyword. -/
structure Suggestion where
  start : Nat
  stop : Nat

/-- The kind of a resolved syntax node: a literal text node or some other
(structural) kind, tagged with an opaque number. -/
inductive NodeKind : Type where
  | text : NodeKind
  | other : Nat → NodeKind
  deriving DecidableEq

/-- A resolved syntax node, reduced to the two pieces `location` reads:
its kind and its byte range in the source file. -/
structure Node where
  kind : NodeKind
  range : Rg

/-- The external source-file interface used by `location`: a file identifier
(`Source::id`) and span resolution (`Source::find`), which may fail. -/
structure Source where
  id : Nat
  find : Span → Option Node

/-- One step of the loop in `Mapping::location`: process a single mapping
entry against the accumulated output ranges (in output order; mutating the
last element is modelled by `dropLast ++ [·]`). -/
def locStep (source : Source) (locations : List Rg) (e : Span × Rg) : List Rg :=
  match (e.1).id with
  | none => locations
  | some i =>
    if i ≠ source.id then locations
    else
      match source.find e.1 with
      | none => locations
      | some node =>
        if node.kind = NodeKind.text then
          let s := node.range.start
          let r : Rg := ⟨s + e.2.start, s + e.2.stop⟩
          match locations.getLast? with
          | some last =>
            if last.stop = r.start then locations.dropLast ++ [⟨last.start, r.stop⟩]
            else locations ++ [r]
          | none => locations ++ [r]
        else
          let r := node.range
          match locations.getLast? with
          | some last => if last = r then locations else locations ++ [r]
          | none => locations ++ [r]

/-- `Mapping::location(suggestion, source)`. The Rust code slices
`self.chars[suggestion.start..suggestion.end]`, which panics (here: `none`)
when `start > end` or `end > len`; otherwise it folds `locStep` over the
sliced entries. -/
def Mapping.location (m : Mapping) (suggestion : Suggestion) (source : Source) :
    Option (List Rg) :=
  if suggestion.start ≤ suggestion.stop ∧ suggestion.stop ≤ m.chars.length then
    some (((m.chars.drop suggestion.start).take
      (suggestion.stop - suggestion.start)).foldl (locStep source) [])
  else
    none

/-- Number of UTF-16 code units needed for one character, as produced by
Rust's `str::encode_utf16`: 1 below U+10000, 2 above. -/
def charUtf16 (c : Char) : Nat := if c.val.toNat < 65536 then 1 else 2

/-- Length of a string counted in UTF-16 code units (`encode_utf16().count()`),
the indexing unit shared by text buffers and mappings. -/
def utf16Len (s : String) : Nat := (s.data.map charUtf16).sum

/-- A rendered glyph, reduced to the two fields the converter reads:
`span : (Span, u16)` (provenance token plus offset into the text node) and
`range : Range<u16>` (the glyph's byte range in the item's text). -/
structure Glyph where
  span : Span × Nat
  range : Rg
  deriving DecidableEq

/-- A positioned run of rendered text (`typst::text::TextItem`), reduced to
the fields the converter reads; `capHeight` stands for
`font.metrics().cap_height` (an `Em` value). -/
structure TextItem where
  text : String
  width : Sc
  capHeight : Sc
  size : Sc
  glyphs : List Glyph

mutual

/-- A frame item; `group` carries its child frame (the only part of a group
the converter reads). Shape, Image and the three Meta variants carry no data
the converter reads. -/
inductive FrameItem : Type where
  | group : Frame → FrameItem
  | text : TextItem → FrameItem
  | shape : FrameItem
  | image : FrameItem
  | metaLink : FrameItem
  | metaElem : FrameItem
  | metaHide : FrameItem

/-- A frame: its ordered sequence of positioned items (`Frame::items`),
as an explicit list-shaped inductive so that the traversal is structurally
recursive. -/
inductive Frame : Type where
  | nil : Frame
  | cons : Point → FrameItem → Frame → Frame

end

/-- A document: its ordered list of pages, each reduced to its frame. -/
structure Document where
  pages : List Frame

/-- An emitted chunk: the extracted text and its aligned mapping. -/
abbrev Chunk := String × Mapping

/-- `const LINE_SPACING: Em = Em::new(0.65)`. -/
def LINE_SPACING : Sc := ⟨65, 100⟩

/-- The converter state (`struct Converter`). -/
structure Converter where
  text : String
  mapping : Mapping
  x : Sc
  y : Sc
  span : Span × Nat
  chunk_size : Nat
  contains_file : Bool

/-- `Converter::new`. -/
def Converter.new (chunk_size : Nat) : Converter :=
  { text := ""
    mapping := ⟨[]⟩
    x := 0
    y := 0
    span := (Span.detached, 0)
    contains_file := false
    chunk_size := chunk_size }

/-- `Converter::insert_space`: append one space and one detached entry. -/
def Converter.insert_space (c : Converter) : Converter :=
  { c with text := c.text ++ " ",
           mapping := ⟨c.mapping.chars ++ [(Span.detached, ⟨0, 0⟩)]⟩ }

/-- `Converter::seperate`: push the accumulated chunk into the output list
when it contains the target file, then reset to a fresh converter. -/
def Converter.seperate (c : Converter) (res : List Chunk) : Converter × List Chunk :=
  if c.contains_file then
    (Converter.new c.chunk_size, res ++ [(c.text, c.mapping)])
  else
    (Converter.new c.chunk_size, res)

/-- `Converter::insert_parbreak`: flush when the mapped-character count
strictly exceeds `chunk_size`, otherwise append two newline characters with
two detached entries. -/
def Converter.insert_parbreak (c : Converter) (res : List Chunk) : Converter × List Chunk :=
  if c.mapping.chars.length > c.chunk_size then
    c.seperate res
  else
    ({ c with text := c.text ++ "\n\n",
              mapping := ⟨c.mapping.chars ++ [(Span.detached, ⟨0, 0⟩), (Span.detached, ⟨0, 0⟩)]⟩ },
      res)

/-- `Converter::whitespace`: the geometric separator heuristic. `none` models
the panic of `text.glyphs[0]` on an empty glyph list in the next-line case. -/
def Converter.whitespace (c : Converter) (t : TextItem) (pos : Point) (res : List Chunk) :
    Option (Converter × List Chunk) :=
  if approx_eq c.x pos.x then some (c, res)
  else
    let line_spacing := (t.capHeight + LINE_SPACING) * t.size
    let next_line := approx_eq (c.y + line_spacing) pos.y
    if !next_line then some (c.insert_parbreak res)
    else
      match t.glyphs with
      | [] => none
      | g :: _ => if g.span = c.span then some (c, res) else some (c.insert_space, res)

/-- The mapping entry built for one UTF-16 code unit from the next glyph
(if any): `(g.span.0, g.span.1..g.span.1 + g.range.len() as u16)`, or a
detached empty entry when the glyphs are exhausted. -/
def glyphEntry : Option Glyph → Span × Rg
  | some g => (g.span.1, ⟨g.span.2, u16add g.span.2 g.range.len⟩)
  | none => (Span.detached, ⟨0, 0⟩)

/-- One iteration of the per-code-unit loop in `Converter::item`'s Text case:
track the span, set the contains-file flag on a match, push the entry. -/
def glyphStep (file_id : Nat) (c : Converter) (m : Span × Rg) : Converter :=
  match m.1.id with
  | some i =>
    let c1 := { c with span := (m.1, m.2.stop) }
    let c2 := if i = file_id then { c1 with contains_file := true } else c1
    { c2 with mapping := ⟨c2.mapping.chars ++ [m]⟩ }
  | none => { c with mapping := ⟨c.mapping.chars ++ [m]⟩ }

/-- The whole per-code-unit loop of `Converter::item`'s Text case: one
iteration per UTF-16 code unit (`for _ in t.text.encode_utf16()`), each
consuming at most one glyph from the iterator. -/
def glyphLoop (file_id : Nat) (c : Converter) (glyphs : List Glyph) : Nat → Converter
  | 0 => c
  | Nat.succ n => glyphLoop file_id (glyphStep file_id c (glyphEntry glyphs.head?)) glyphs.tail n

mutual

/-- `Converter::frame`: visit each positioned item at its absolute position. -/
def Converter.frame (c : Converter) (f : Frame) (pos : Point) (res : List Chunk)
    (file_id : Nat) : Option (Converter × List Chunk) :=
  match f with
  | .nil => some (c, res)
  | .cons p it rest =>
    match Converter.item c (p + pos) it res file_id with
    | none => none
    | some (c1, res1) => Converter.frame c1 rest pos res1 file_id

/-- `Converter::item`: group items recurse, Text items run the whitespace
heuristic, append their text, update the cursor and run the glyph loop;
Shape/Image/Meta items do nothing. -/
def Converter.item (c : Converter) (pos : Point) (it : FrameItem) (res : List Chunk)
    (file_id : Nat) : Option (Converter × List Chunk) :=
  match it with
  | .group f => Converter.frame c f pos res file_id
  | .text t =>
    match c.whitespace t pos res with
    | none => none
    | some (c1, res1) =>
      let c2 := { c1 with x := pos.x + t.width, y := pos.y, text := c1.text ++ t.text }
      some (glyphLoop file_id c2 t.glyphs (utf16Len t.text), res1)
  | .shape => some (c, res)
  | .image => some (c, res)
  | .metaLink => some (c, res)
  | .metaElem => some (c, res)
  | .metaHide => some (c, res)

end

/-- The per-page loop of `document`: a fresh converter per page, a final push
of the accumulated chunk when it contains the target file. -/
def documentPages (chunk_size file_id : Nat) : List Frame → List Chunk → Option (List Chunk)
  | [], res => some res
  | page :: rest, res =>
    match Converter.frame (Converter.new chunk_size) page Point.zero res file_id with
    | none => none
    | some (c, res1) =>
      documentPages chunk_size file_id rest
        (if c.contains_file then res1 ++ [(c.text, c.mapping)] else res1)

/-- `document(doc, chunk_size, file_id)`: the top-level conversion. -/
def document (doc : Document) (chunk_size : Nat) (file_id : Nat) : Option (List Chunk) :=
  documentPages chunk_size file_id doc.pages []

/-- Helper view of the glyph loop: the list of mapping entries it appends,
one per UTF-16 code unit of the processed text. -/
def glyphEntries (glyphs : List Glyph) : Nat → List (Span × Rg)
  | 0 => []
  | Nat.succ n => glyphEntry glyphs.head? :: glyphEntries glyphs.tail n

mutual

/-- Items on which the traversal cannot panic: every Text item reachable in
them has a nonempty glyph list. -/
def itemGood : FrameItem → Bool
  | .group f => frameGood f
  | .text t => !t.glyphs.isEmpty
  | .shape => true
  | .image => true
  | .metaLink => true
  | .metaElem => true
  | .metaHide => true

/-- Frames on which the traversal cannot panic. -/
def frameGood : Frame → Bool
  | .nil => true
  | .cons _ it rest => itemGood it && frameGood rest

end

/-- Documents on which the traversal cannot panic: every Text item in every
page has a nonempty glyph list. -/
def docGood (doc : Document) : Bool := doc.pages.all frameGood

/-- The converter invariant: the text is aligned 1:1 (in UTF-16 code units)
with the mapping, and the contains-file flag is only set when some mapping
entry's span resolves to the target file. -/
def InvC (file_id : Nat) (c : Converter) : Prop :=
  utf16Len c.text = c.mapping.chars.length ∧
  (c.contains_file = true → ∃ e ∈ c.mapping.chars, (Prod.fst e).id = some file_id)

/-- The chunk invariant: aligned text/mapping and at least one entry whose
span resolves to the target file. -/
def InvChunk (file_id : Nat) (ch : Chunk) : Prop :=
  utf16Len ch.1 = ch.2.chars.length ∧ ∃ e ∈ ch.2.chars, (Prod.fst e).id = some file_id

/-- The output-list invariant: every chunk pushed so far satisfies
`InvChunk`. -/
def InvRes (file_id : Nat) (res : List Chunk) : Prop := ∀ ch ∈ res, InvChunk file_id ch

-- § Witness fixtures (concrete inputs used by witness theorems).

/-- A two-glyph text item whose spans resolve to file 5. -/
def tHi : TextItem :=
  ⟨"hi", 1, ⟨7, 10⟩, 1, [⟨(Span.attached 5 1, 0), ⟨0, 1⟩⟩, ⟨(Span.attached 5 1, 1), ⟨1, 2⟩⟩]⟩

/-- A one-page document containing `tHi` at the origin. -/
def docHi : Document := ⟨[Frame.cons ⟨0, 0⟩ (FrameItem.text tHi) Frame.nil]⟩

/-- The mapping of the single chunk `document docHi 10 5` emits. -/
def mapHi : Mapping := ⟨[(Span.attached 5 1, ⟨0, 1⟩), (Span.attached 5 1, ⟨1, 2⟩)]⟩

/-- A one-glyph text item whose line-spacing offset is exactly 1. -/
def tNext : TextItem := ⟨"x", 1, ⟨35, 100⟩, 1, [⟨(Span.attached 2 9, 4), ⟨0, 1⟩⟩]⟩

/-- A two-glyph text item used at an off-grid position. -/
def tFar : TextItem :=
  ⟨"ab", 1, ⟨35, 100⟩, 1, [⟨(Span.attached 7 3, 0), ⟨0, 1⟩⟩, ⟨(Span.attached 7 3, 1), ⟨1, 2⟩⟩]⟩

/-- A glyphless text item placed so that the next-line branch is taken:
visiting it panics on `text.glyphs[0]`. -/
def tPanic : TextItem := ⟨"y", 1, ⟨35, 100⟩, 1, []⟩

/-- A one-page document whose traversal panics (`tPanic` at position (1, 1),
reached with cursor (0, 0): x differs, 0 + line-spacing = 1 matches y). -/
def docPanic : Document := ⟨[Frame.cons ⟨1, 1⟩ (FrameItem.text tPanic) Frame.nil]⟩

-- § Theorems.

theorem utf16Len_append (a b : String) : utf16Len (a ++ b) = utf16Len a + utf16Len b := by
  simp [utf16Len, String.data_append]

theorem utf16Len_space : utf16Len " " = 1 := by decide

theorem utf16Len_parbreak : utf16Len "\n\n" = 2 := by decide

theorem glyphStep_fields (file_id : Nat) (c : Converter) (m : Span × Rg) :
    (glyphStep file_id c m).text = c.text ∧
    (glyphStep file_id c m).x = c.x ∧
    (glyphStep file_id c m).y = c.y ∧
    (glyphStep file_id c m).chunk_size = c.chunk_size ∧
    (glyphStep file_id c m).mapping.chars = c.mapping.chars ++ [m] ∧
    (glyphStep file_id c m).contains_file =
      (c.contains_file || decide ((Prod.fst m).id = some file_id)) := by
  unfold glyphStep
  cases h : (Prod.fst m).id with
  | none => simp [h]
  | some i =>
    by_cases hi : i = file_id
    · subst hi; simp [h]
    · simp [h, hi]

theorem glyphLoop_fields (file_id : Nat) (n : Nat) : ∀ (c : Converter) (glyphs : List Glyph),
    (glyphLoop file_id c glyphs n).text = c.text ∧
    (glyphLoop file_id c glyphs n).x = c.x ∧
    (glyphLoop file_id c glyphs n).y = c.y ∧
    (glyphLoop file_id c glyphs n).chunk_size = c.chunk_size ∧
    (glyphLoop file_id c glyphs n).mapping.chars = c.mapping.chars ++ glyphEntries glyphs n := by
  induction n with
  | zero => intro c glyphs; simp [glyphLoop, glyphEntries]
  | succ n ih =>
    intro c glyphs
    obtain ⟨s1, s2, s3, s4, s5, _⟩ := glyphStep_fields file_id c (glyphEntry glyphs.head?)
    obtain ⟨h1, h2, h3, h4, h5⟩ := ih (glyphStep file_id c (glyphEntry glyphs.head?)) glyphs.tail
    refine ⟨?_, ?_, ?_, ?_, ?_⟩ <;>
      simp [glyphLoop, glyphEntries, h1, h2, h3, h4, h5, s1, s2, s3, s4, s5]

theorem glyphLoop_contains (file_id : Nat) (n : Nat) : ∀ (c : Converter) (glyphs : List Glyph),
    (glyphLoop file_id c glyphs n).contains_file = true →
    c.contains_file = true ∨ ∃ e ∈ glyphEntries glyphs n, (Prod.fst e).id = some file_id := by
  induction n with
  | zero => intro c glyphs h; exact Or.inl h
  | succ n ih =>
    intro c glyphs h
    rcases ih (glyphStep file_id c (glyphEntry glyphs.head?)) glyphs.tail h with h' | ⟨e, he, hid⟩
    · obtain ⟨_, _, _, _, _, s6⟩ := glyphStep_fields file_id c (glyphEntry glyphs.head?)
      rw [s6] at h'
      rcases Bool.or_eq_true_iff.mp h' with hcf | hdec
      · exact Or.inl hcf
      · exact Or.inr ⟨glyphEntry glyphs.head?, by simp [glyphEntries], of_decide_eq_true hdec⟩
    · exact Or.inr ⟨e, by simp [glyphEntries, he], hid⟩

theorem glyphEntries_length (n : Nat) : ∀ (glyphs : List Glyph),
    (glyphEntries glyphs n).length = n := by
  induction n with
  | zero => intro glyphs; simp [glyphEntries]
  | succ n ih => intro glyphs; simp [glyphEntries, ih]

theorem invC_new (file_id chunk_size : Nat) : InvC file_id (Converter.new chunk_size) := by
  refine ⟨rfl, ?_⟩
  intro h
  simp [Converter.new] at h

theorem insert_space_pres (file_id : Nat) (c : Converter) (h : InvC file_id c) :
    InvC file_id c.insert_space := by
  obtain ⟨h1, h2⟩ := h
  refine ⟨?_, ?_⟩
  · simp [Converter.insert_space, utf16Len_append, h1, utf16Len_space]
  · intro hcf
    simp only [Converter.insert_space] at hcf
    rcases h2 hcf with ⟨e, he, hid⟩
    exact ⟨e, by simp [Converter.insert_space, he], hid⟩

theorem seperate_pres (file_id : Nat) (c : Converter) (res : List Chunk)
    (hc : InvC file_id c) (hr : InvRes file_id res) :
    InvC file_id (c.seperate res).1 ∧ InvRes file_id (c.seperate res).2 := by
  unfold Converter.seperate
  by_cases h : c.contains_file = true
  · simp only [h, if_true]
    refine ⟨invC_new file_id c.chunk_size, ?_⟩
    intro ch hch
    rcases List.mem_append.mp hch with h1 | h2
    · exact hr ch h1
    · simp only [List.mem_singleton] at h2
      subst h2
      exact ⟨hc.1, hc.2 h⟩
  · simp only [Bool.not_eq_true] at h
    simp only [h, Bool.false_eq_true, if_false]
    exact ⟨invC_new file_id c.chunk_size, hr⟩

theorem insert_parbreak_pres (file_id : Nat) (c : Converter) (res : List Chunk)
    (hc : InvC file_id c) (hr : InvRes file_id res) :
    InvC file_id (c.insert_parbreak res).1 ∧ InvRes file_id (c.insert_parbreak res).2 := by
  unfold Converter.insert_parbreak
  split
  · exact seperate_pres file_id c res hc hr
  · refine ⟨⟨?_, ?_⟩, hr⟩
    · simp [utf16Len_append, hc.1, utf16Len_parbreak]
    · intro hcf
      simp only at hcf
      rcases hc.2 hcf with ⟨e, he, hid⟩
      exact ⟨e, by simp [he], hid⟩

theorem whitespace_pres (file_id : Nat) (c : Converter) (t : TextItem) (pos : Point)
    (res : List Chunk) (c' : Converter) (res' : List Chunk)
    (hc : InvC file_id c) (hr : InvRes file_id res)
    (h : c.whitespace t pos res = some (c', res')) :
    InvC file_id c' ∧ InvRes file_id res' := by
  unfold Converter.whitespace at h
  split at h
  · simp only [Option.some.injEq, Prod.mk.injEq] at h
    obtain ⟨h1, h2⟩ := h
    subst h1; subst h2
    exact ⟨hc, hr⟩
  · split at h <;> dsimp only at h <;> split at h
    · simp only [Option.some.injEq] at h
      have hp := insert_parbreak_pres file_id c res hc hr
      rw [h] at hp
      exact hp
    · exact Option.noConfusion h
    · simp only [Option.some.injEq] at h
      have hp := insert_parbreak_pres file_id c res hc hr
      rw [h] at hp
      exact hp
    · split at h <;>
        (simp only [Option.some.injEq, Prod.mk.injEq] at h
         obtain ⟨h1, h2⟩ := h
         subst h1; subst h2
         first
         | exact ⟨hc, hr⟩
         | exact ⟨insert_space_pres file_id c hc, hr⟩)

mutual

theorem item_pres (file_id : Nat) (it : FrameItem) :
    ∀ (c : Converter) (pos : Point) (res : List Chunk) (c' : Converter) (res' : List Chunk),
      InvC file_id c → InvRes file_id res →
      Converter.item c pos it res file_id = some (c', res') →
      InvC file_id c' ∧ InvRes file_id res' := by
  intro c pos res c' res' hc hr h
  cases it with
  | group f => exact frame_pres file_id f c pos res c' res' hc hr h
  | text t =>
    simp only [Converter.item] at h
    cases hw : c.whitespace t pos res with
    | none => rw [hw] at h; exact Option.noConfusion h
    | some cr =>
      obtain ⟨c1, res1⟩ := cr
      rw [hw] at h
      dsimp only at h
      simp only [Option.some.injEq, Prod.mk.injEq] at h
      obtain ⟨h1, h2⟩ := h
      subst h2
      obtain ⟨hc1, hr1⟩ := whitespace_pres file_id c t pos res c1 res1 hc hr hw
      subst h1
      refine ⟨?_, hr1⟩
      obtain ⟨f1, _, _, _, f5⟩ :=
        glyphLoop_fields file_id (utf16Len t.text)
          { c1 with x := pos.x + t.width, y := pos.y, text := c1.text ++ t.text } t.glyphs
      constructor
      · rw [f1, f5]
        show utf16Len (c1.text ++ t.text) = _
        rw [utf16Len_append, List.length_append, glyphEntries_length, hc1.1]
      · intro hcf
        rcases glyphLoop_contains file_id (utf16Len t.text) _ t.glyphs hcf with hcf2 | ⟨e, he, hid⟩
        · rcases hc1.2 hcf2 with ⟨e, he, hid⟩
          exact ⟨e, by rw [f5]; exact List.mem_append_left _ he, hid⟩
        · exact ⟨e, by rw [f5]; exact List.mem_append_right _ he, hid⟩
  | shape =>
    simp only [Converter.item, Option.some.injEq, Prod.mk.injEq] at h
    obtain ⟨h1, h2⟩ := h; subst h1; subst h2; exact ⟨hc, hr⟩
  | image =>
    simp only [Converter.item, Option.some.injEq, Prod.mk.injEq] at h
    obtain ⟨h1, h2⟩ := h; subst h1; subst h2; exact ⟨hc, hr⟩
  | metaLink =>
    simp only [Converter.item, Option.some.injEq, Prod.mk.injEq] at h
    obtain ⟨h1, h2⟩ := h; subst h1; subst h2; exact ⟨hc, hr⟩
  | metaElem =>
    simp only [Converter.item, Option.some.injEq, Prod.mk.injEq] at h
    obtain ⟨h1, h2⟩ := h; subst h1; subst h2; exact ⟨hc, hr⟩
  | metaHide =>
    simp only [Converter.item, Option.some.injEq, Prod.mk.injEq] at h
    obtain ⟨h1, h2⟩ := h; subst h1; subst h2; exact ⟨hc, hr⟩

theorem frame_pres (file_id : Nat) (f : Frame) :
    ∀ (c : Converter) (pos : Point) (res : List Chunk) (c' : Converter) (res' : List Chunk),
      InvC file_id c → InvRes file_id res →
      Converter.frame c f pos res file_id = some (c', res') →
      InvC file_id c' ∧ InvRes file_id res' := by
  intro c pos res c' res' hc hr h
  cases f with
  | nil =>
    simp only [Converter.frame, Option.some.injEq, Prod.mk.injEq] at h
    obtain ⟨h1, h2⟩ := h
    subst h1; subst h2
    exact ⟨hc, hr⟩
  | cons p it rest =>
    simp only [Converter.frame] at h
    cases hi : Converter.item c (p + pos) it res file_id with
    | none => rw [hi] at h; exact Option.noConfusion h
    | some cr =>
      obtain ⟨c1, res1⟩ := cr
      rw [hi] at h
      obtain ⟨hc1, hr1⟩ := item_pres file_id it c (p + pos) res c1 res1 hc hr hi
      exact frame_pres file_id rest c1 pos res1 c' res' hc1 hr1 h

end

theorem documentPages_pres (chunk_size file_id : Nat) : ∀ (pages : List Frame),
    ∀ (res chunks : List Chunk),
    InvRes file_id res →
    documentPages chunk_size file_id pages res = some chunks →
    InvRes file_id chunks := by
  intro pages
  induction pages with
  | nil =>
    intro res chunks hr h
    simp only [documentPages, Option.some.injEq] at h
    subst h
    exact hr
  | cons page rest ih =>
    intro res chunks hr h
    simp only [documentPages] at h
    cases hf : Converter.frame (Converter.new chunk_size) page Point.zero res file_id with
    | none => rw [hf] at h; exact Option.noConfusion h
    | some cr =>
      obtain ⟨c, res1⟩ := cr
      rw [hf] at h
      obtain ⟨hc1, hr1⟩ :=
        frame_pres file_id page (Converter.new chunk_size) Point.zero res c res1
          (invC_new file_id chunk_size) hr hf
      refine ih _ chunks ?_ h
      by_cases hcf : c.contains_file = true
      · simp only [hcf, if_true]
        intro ch hch
        rcases List.mem_append.mp hch with h1 | h2
        · exact hr1 ch h1
        · simp only [List.mem_singleton] at h2
          subst h2
          exact ⟨hc1.1, hc1.2 hcf⟩
      · simp only [Bool.not_eq_true] at hcf
        simp only [hcf, Bool.false_eq_true, if_false]
        exact hr1

/-- C1: for every chunk (text, mapping) emitted by `document` — whether pushed
at a mid-page flush or at end of page — the number of mapping entries equals
the length of the chunk's text counted in UTF-16 code units. -/
theorem document_chunk_mapping_length (doc : Document) (chunk_size file_id : Nat)
    (chunks : List Chunk) (h : document doc chunk_size file_id = some chunks) :
    ∀ ch ∈ chunks, utf16Len ch.1 = ch.2.chars.length := by
  intro ch hch
  have hall :=
    documentPages_pres chunk_size file_id doc.pages [] chunks (by intro x hx; cases hx) h
  exact (hall ch hch).1

/-- Witness for C1 at a concrete one-page document. -/
theorem document_chunk_mapping_length_witness : utf16Len "hi" = mapHi.chars.length :=
  document_chunk_mapping_length docHi 10 5 [("hi", mapHi)] (by decide) ("hi", mapHi) (by simp)

/-- C4: every chunk that `document` emits contains at least one mapping entry
whose span resolves to the requested file; accumulations with no such entry
are discarded at flush or page end and never appear in the output. -/
theorem document_chunk_contains_target (doc : Document) (chunk_size file_id : Nat)
    (chunks : List Chunk) (h : document doc chunk_size file_id = some chunks) :
    ∀ ch ∈ chunks, ∃ e ∈ ch.2.chars, (Prod.fst e).id = some file_id := by
  intro ch hch
  have hall :=
    documentPages_pres chunk_size file_id doc.pages [] chunks (by intro x hx; cases hx) h
  exact (hall ch hch).2

/-- Witness for C4 at a concrete one-page document. -/
theorem document_chunk_contains_target_witness :
    ∃ e ∈ mapHi.chars, (Prod.fst e).id = some 5 :=
  document_chunk_contains_target docHi 10 5 [("hi", mapHi)] (by decide) ("hi", mapHi) (by simp)

/-- C5: at a paragraph boundary the converter flushes its chunk exactly when
the mapping-entry count strictly exceeds `chunk_size` (pushing it to the
output only when it contains the target file, then starting fresh); when the
count is at most `chunk_size` — including exactly equal — it instead appends
two newline characters, each with a detached mapping entry, and keeps
accumulating in the same chunk. -/
theorem insert_parbreak_flushes_iff_exceeds (c : Converter) (res : List Chunk) :
    c.insert_parbreak res =
      if c.mapping.chars.length > c.chunk_size then
        (Converter.new c.chunk_size,
          if c.contains_file then res ++ [(c.text, c.mapping)] else res)
      else
        ({ c with
            text := c.text ++ "\n\n",
            mapping := ⟨c.mapping.chars ++ [(Span.detached, ⟨0, 0⟩), (Span.detached, ⟨0, 0⟩)]⟩ },
          res) := by
  unfold Converter.insert_parbreak Converter.seperate
  split
  · split <;> rfl
  · rfl

/-- C9: processing a Shape, Image, or Meta (Link/Element/Hide) frame item
returns the converter (text, mapping, cursor, tracked span, contains-file
flag, chunk size) and the output list entirely unchanged, so the next
whitespace-heuristic evaluation behaves as if the item were absent. -/
theorem passive_items_are_noops (c : Converter) (pos : Point) (res : List Chunk)
    (file_id : Nat) :
    Converter.item c pos FrameItem.shape res file_id = some (c, res) ∧
    Converter.item c pos FrameItem.image res file_id = some (c, res) ∧
    Converter.item c pos FrameItem.metaLink res file_id = some (c, res) ∧
    Converter.item c pos FrameItem.metaElem res file_id = some (c, res) ∧
    Converter.item c pos FrameItem.metaHide res file_id = some (c, res) :=
  ⟨rfl, rfl, rfl, rfl, rfl⟩

theorem glyphEntries_eq (n : Nat) : ∀ (glyphs : List Glyph),
    glyphEntries glyphs n =
      (glyphs.take n).map (fun g =>
          (Prod.fst g.span, ⟨Prod.snd g.span, u16add (Prod.snd g.span) g.range.len⟩)) ++
        List.replicate (n - glyphs.length) (Span.detached, ⟨0, 0⟩) := by
  induction n with
  | zero => intro glyphs; simp [glyphEntries]
  | succ n ih =>
    intro glyphs
    cases glyphs with
    | nil => simp [glyphEntries, glyphEntry, ih, List.replicate_succ]
    | cons g gs => simp [glyphEntries, glyphEntry, ih, Nat.succ_sub_succ]

/-- C3 (amended): when processing a Text item, the loop runs once per UTF-16
code unit of the item's text and consumes exactly one glyph per code unit —
a glyph's range length does not determine how many positions it accounts
for. The i-th appended mapping entry is the i-th glyph's whole
`(span, offset .. offset + range-length)` pair (not narrowed per position),
and once glyphs are exhausted every remaining position receives a detached
empty entry. -/
theorem glyph_consumption_one_per_code_unit (file_id : Nat) (c : Converter)
    (glyphs : List Glyph) (n : Nat) :
    (glyphLoop file_id c glyphs n).mapping.chars =
      c.mapping.chars ++
        ((glyphs.take n).map (fun g =>
            (Prod.fst g.span, ⟨Prod.snd g.span, u16add (Prod.snd g.span) g.range.len⟩)) ++
          List.replicate (n - glyphs.length) (Span.detached, ⟨0, 0⟩)) := by
  rw [(glyphLoop_fields file_id n c glyphs).2.2.2.2, glyphEntries_eq]

/-- Counterexample to C3 as stated: with a two-code-unit text and a single
attached glyph whose range length is 2, the glyph does not account for two
character positions — the loop pairs the first code unit with the whole
glyph and gives the second code unit a detached empty entry, which carries
no sub-range of the glyph's (attached) span. -/
theorem glyph_consumption_counterexample :
    (glyphLoop 0 (Converter.new 10) [⟨(Span.attached 0 7, 0), ⟨0, 2⟩⟩] 2).mapping.chars =
      [(Span.attached 0 7, ⟨0, 2⟩), (Span.detached, ⟨0, 0⟩)] ∧
    (Span.detached : Span) ≠ Span.attached 0 7 :=
  ⟨by decide, by decide⟩

theorem locStep_text (source : Source) (s : Span) (node : Node) (r : Rg) (locs : List Rg)
    (hid : s.id = some source.id) (hfind : source.find s = some node)
    (hkind : node.kind = NodeKind.text) :
    locStep source locs (s, r) =
      match locs.getLast? with
      | some last =>
        if last.stop = node.range.start + r.start
        then locs.dropLast ++ [⟨last.start, node.range.start + r.stop⟩]
        else locs ++ [⟨node.range.start + r.start, node.range.start + r.stop⟩]
      | none => locs ++ [⟨node.range.start + r.start, node.range.start + r.stop⟩] := by
  unfold locStep
  simp [hid, hfind, hkind]

theorem locStep_other (source : Source) (s : Span) (node : Node) (r : Rg) (locs : List Rg)
    (hid : s.id = some source.id) (hfind : source.find s = some node)
    (hkind : node.kind ≠ NodeKind.text) :
    locStep source locs (s, r) =
      match locs.getLast? with
      | some last => if last = node.range then locs else locs ++ [node.range]
      | none => locs ++ [node.range] := by
  unfold locStep
  simp [hid, hfind, hkind]

/-- C6: a mapping entry resolving to a literal text node contributes the
absolute range `node.start + sub.start .. node.start + sub.end`, and when
that range starts exactly where the previously pushed output range ends, the
previous range is extended in place rather than a new one pushed — two
contiguous sub-ranges of the same text node yield one output range, not
two. -/
theorem location_text_node_coalesces (source : Source) (s : Span) (node : Node)
    (a b d : Nat) (m : Mapping)
    (hm : m.chars = [(s, ⟨a, b⟩), (s, ⟨b, d⟩)])
    (hid : s.id = some source.id)
    (hfind : source.find s = some node)
    (hkind : node.kind = NodeKind.text) :
    m.location ⟨0, 2⟩ source = some [⟨node.range.start + a, node.range.start + d⟩] := by
  have e1 : locStep source [] (s, ⟨a, b⟩) =
      [⟨node.range.start + a, node.range.start + b⟩] := by
    rw [locStep_text source s node ⟨a, b⟩ [] hid hfind hkind]
    rfl
  have e2 : locStep source [⟨node.range.start + a, node.range.start + b⟩] (s, ⟨b, d⟩) =
      [⟨node.range.start + a, node.range.start + d⟩] := by
    rw [locStep_text source s node ⟨b, d⟩ _ hid hfind hkind]
    simp
  unfold Mapping.location
  rw [if_pos ⟨Nat.zero_le 2, by rw [hm]; exact Nat.le_refl 2⟩]
  rw [hm]
  show some (List.foldl (locStep source) [] [(s, ⟨a, b⟩), (s, ⟨b, d⟩)]) = _
  rw [List.foldl_cons, List.foldl_cons, List.foldl_nil, e1, e2]

/-- Witness for C6: two contiguous sub-ranges of one text node, resolved
against a concrete source, produce a single coalesced range. -/
theorem location_text_node_coalesces_witness :
    Mapping.location ⟨[(Span.attached 3 1, ⟨0, 2⟩), (Span.attached 3 1, ⟨2, 4⟩)]⟩ ⟨0, 2⟩
      ⟨3, fun _ => some ⟨NodeKind.text, ⟨10, 20⟩⟩⟩ = some [⟨10 + 0, 10 + 4⟩] :=
  location_text_node_coalesces
    ⟨3, fun _ => some ⟨NodeKind.text, ⟨10, 20⟩⟩⟩ (Span.attached 3 1)
    ⟨NodeKind.text, ⟨10, 20⟩⟩ 0 2 4
    ⟨[(Span.attached 3 1, ⟨0, 2⟩), (Span.attached 3 1, ⟨2, 4⟩)]⟩
    rfl rfl rfl rfl

theorem foldl_locStep_const (source : Source) (s : Span) (node : Node)
    (hid : s.id = some source.id) (hfind : source.find s = some node)
    (hkind : node.kind ≠ NodeKind.text) :
    ∀ (l : List (Span × Rg)), (∀ e ∈ l, Prod.fst e = s) →
      List.foldl (locStep source) [node.range] l = [node.range] := by
  intro l
  induction l with
  | nil => intro _; rfl
  | cons e l' ih =>
    intro hall
    have he : e = (s, Prod.snd e) := by
      rw [← hall e (by simp)]
    have step : locStep source [node.range] e = [node.range] := by
      rw [he, locStep_other source s node (Prod.snd e) _ hid hfind hkind]
      simp
    rw [List.foldl_cons, step]
    exact ih (fun e' he' => hall e' (by simp [he']))

/-- C7: a mapping entry resolving to a non-text (structural) node pushes the
node's full range only when it differs from the last pushed range, so a
suggestion all of whose characters resolve to the identical non-text node
returns that node's range exactly once. -/
theorem location_structural_node_dedup (source : Source) (s : Span) (node : Node)
    (entries : List (Span × Rg)) (m : Mapping)
    (hm : m.chars = entries) (hne : entries ≠ [])
    (hall : ∀ e ∈ entries, Prod.fst e = s)
    (hid : s.id = some source.id) (hfind : source.find s = some node)
    (hkind : node.kind ≠ NodeKind.text) :
    m.location ⟨0, entries.length⟩ source = some [node.range] := by
  unfold Mapping.location
  rw [if_pos ⟨Nat.zero_le entries.length, by rw [hm]⟩]
  rw [hm]
  have hslice : (entries.drop 0).take (entries.length - 0) = entries := by
    simp
  rw [hslice]
  cases entries with
  | nil => exact absurd rfl hne
  | cons e0 rest =>
    have he0 : e0 = (s, Prod.snd e0) := by
      rw [← hall e0 (by simp)]
    have step0 : locStep source [] e0 = [node.range] := by
      rw [he0, locStep_other source s node (Prod.snd e0) _ hid hfind hkind]
      rfl
    rw [List.foldl_cons, step0]
    exact congrArg some
      (foldl_locStep_const source s node hid hfind hkind rest
        (fun e' he' => hall e' (by simp [he'])))

/-- Witness for C7: three characters resolving to one structural node yield
its range exactly once. -/
theorem location_structural_node_dedup_witness :
    Mapping.location
      ⟨[(Span.attached 4 2, ⟨0, 1⟩), (Span.attached 4 2, ⟨1, 2⟩), (Span.attached 4 2, ⟨2, 3⟩)]⟩
      ⟨0, 3⟩ ⟨4, fun _ => some ⟨NodeKind.other 9, ⟨30, 42⟩⟩⟩ = some [⟨30, 42⟩] :=
  location_structural_node_dedup
    ⟨4, fun _ => some ⟨NodeKind.other 9, ⟨30, 42⟩⟩⟩ (Span.attached 4 2)
    ⟨NodeKind.other 9, ⟨30, 42⟩⟩
    [(Span.attached 4 2, ⟨0, 1⟩), (Span.attached 4 2, ⟨1, 2⟩), (Span.attached 4 2, ⟨2, 3⟩)]
    ⟨[(Span.attached 4 2, ⟨0, 1⟩), (Span.attached 4 2, ⟨1, 2⟩), (Span.attached 4 2, ⟨2, 3⟩)]⟩
    rfl (by decide) (by decide) rfl rfl (by decide)

/-- C8: in the whitespace heuristic's next-line case (x differs, previous y
plus the font-derived line-spacing offset approximately equals the new y),
no separator is inserted exactly when the item's first glyph's span pair
equals the tracked (span, range-end) of the most recent resolvable glyph;
otherwise exactly one space character with a detached mapping entry is
inserted. -/
theorem whitespace_next_line_space (c : Converter) (t : TextItem) (pos : Point)
    (res : List Chunk) (g : Glyph) (gs : List Glyph)
    (hg : t.glyphs = g :: gs)
    (h1 : approx_eq c.x pos.x = false)
    (h2 : approx_eq (c.y + (t.capHeight + LINE_SPACING) * t.size) pos.y = true) :
    c.whitespace t pos res =
      some (if g.span = c.span then (c, res)
            else ({ c with
                      text := c.text ++ " ",
                      mapping := ⟨c.mapping.chars ++ [(Span.detached, ⟨0, 0⟩)]⟩ }, res)) := by
  unfold Converter.whitespace
  rw [h1]
  simp only [Bool.false_eq_true, if_false]
  rw [h2]
  simp only [Bool.not_true, Bool.false_eq_true, if_false]
  rw [hg]
  by_cases hsp : g.span = c.span
  · simp [hsp]
  · simp [hsp, Converter.insert_space]

/-- Witness for C8: a fresh converter (tracked span detached) meets a
next-line item whose first glyph has an attached span, so one space with a
detached entry is inserted. -/
theorem whitespace_next_line_space_witness :
    (Converter.new 10).whitespace tNext ⟨1, 1⟩ [] =
      some ({ Converter.new 10 with
                text := " ",
                mapping := ⟨[(Span.detached, ⟨0, 0⟩)]⟩ }, []) :=
  whitespace_next_line_space (Converter.new 10) tNext ⟨1, 1⟩ []
    ⟨(Span.attached 2 9, 4), ⟨0, 1⟩⟩ [] rfl (by decide) (by decide)

/-- C10: a fresh converter (at page start and after each mid-page flush) has
cursor (0, 0) and a detached tracked span; consequently, a first Text item at
an x not approximately 0 and a y not matching the line-spacing formula makes
the chunk begin with two synthetic newline characters carrying detached
mapping entries, inserted before any real text. -/
theorem fresh_converter_starts_with_parbreak (chunk_size file_id : Nat) (pos : Point)
    (t : TextItem) (res : List Chunk)
    (h1 : approx_eq 0 pos.x = false)
    (h2 : approx_eq (0 + (t.capHeight + LINE_SPACING) * t.size) pos.y = false) :
    (Converter.new chunk_size).x = 0 ∧ (Converter.new chunk_size).y = 0 ∧
    (Converter.new chunk_size).span = (Span.detached, 0) ∧
    (Converter.item (Converter.new chunk_size) pos (FrameItem.text t) res file_id).map
        (fun cr => ((Prod.fst cr).text, (Prod.fst cr).mapping.chars, Prod.snd cr)) =
      some ("\n\n" ++ t.text,
        (Span.detached, ⟨0, 0⟩) :: (Span.detached, ⟨0, 0⟩) ::
          glyphEntries t.glyphs (utf16Len t.text),
        res) := by
  refine ⟨rfl, rfl, rfl, ?_⟩
  have hw : (Converter.new chunk_size).whitespace t pos res =
      some ({ Converter.new chunk_size with
                text := (Converter.new chunk_size).text ++ "\n\n",
                mapping := ⟨(Converter.new chunk_size).mapping.chars ++
                  [(Span.detached, ⟨0, 0⟩), (Span.detached, ⟨0, 0⟩)]⟩ }, res) := by
    unfold Converter.whitespace
    have hx : (Converter.new chunk_size).x = 0 := rfl
    have hy : (Converter.new chunk_size).y = 0 := rfl
    rw [hx, hy, h1]
    simp only [Bool.false_eq_true, if_false]
    rw [h2]
    simp only [Bool.not_false, if_true]
    unfold Converter.insert_parbreak
    rw [if_neg]
    show ¬(Converter.new chunk_size).mapping.chars.length > (Converter.new chunk_size).chunk_size
    simp [Converter.new]
  simp only [Converter.item]
  rw [hw]
  simp only [Option.map_some', Option.some.injEq, Prod.mk.injEq]
  refine ⟨?_, ?_, trivial⟩
  · rw [(glyphLoop_fields file_id (utf16Len t.text) _ t.glyphs).1]
    rfl
  · rw [(glyphLoop_fields file_id (utf16Len t.text) _ t.glyphs).2.2.2.2]
    rfl


/-- Witness for C10: a fresh converter meets a first Text item at (5, 5),
away from both the same-x and next-line geometries. -/
theorem fresh_converter_starts_with_parbreak_witness :
    (Converter.new 10).x = 0 ∧ (Converter.new 10).y = 0 ∧
    (Converter.new 10).span = (Span.detached, 0) ∧
    (Converter.item (Converter.new 10) ⟨5, 5⟩ (FrameItem.text tFar) [] 7).map
        (fun cr => ((Prod.fst cr).text, (Prod.fst cr).mapping.chars, Prod.snd cr)) =
      some ("\n\n" ++ tFar.text,
        (Span.detached, ⟨0, 0⟩) :: (Span.detached, ⟨0, 0⟩) ::
          glyphEntries tFar.glyphs (utf16Len tFar.text),
        []) :=
  fresh_converter_starts_with_parbreak 10 7 ⟨5, 5⟩ tFar [] (by decide) (by decide)

theorem whitespace_total (c : Converter) (t : TextItem) (pos : Point) (res : List Chunk)
    (hg : t.glyphs ≠ []) : (c.whitespace t pos res).isSome = true := by
  cases hgl : t.glyphs with
  | nil => exact absurd hgl hg
  | cons g gs =>
    unfold Converter.whitespace
    rw [hgl]
    dsimp only
    split
    · rfl
    · split
      · rfl
      · split <;> rfl

mutual

theorem item_total (file_id : Nat) (it : FrameItem) :
    ∀ (c : Converter) (pos : Point) (res : List Chunk),
      itemGood it = true → (Converter.item c pos it res file_id).isSome = true := by
  intro c pos res hgood
  cases it with
  | group f =>
    exact frame_total file_id f c pos res (by simpa [itemGood] using hgood)
  | text t =>
    have hg : t.glyphs ≠ [] := by
      intro hnil
      simp [itemGood, hnil] at hgood
    have hws := whitespace_total c t pos res hg
    simp only [Converter.item]
    cases hw : c.whitespace t pos res with
    | none => rw [hw] at hws; exact absurd hws (by simp)
    | some cr =>
      obtain ⟨c1, res1⟩ := cr
      rfl
  | shape => rfl
  | image => rfl
  | metaLink => rfl
  | metaElem => rfl
  | metaHide => rfl

theorem frame_total (file_id : Nat) (f : Frame) :
    ∀ (c : Converter) (pos : Point) (res : List Chunk),
      frameGood f = true → (Converter.frame c f pos res file_id).isSome = true := by
  intro c pos res hgood
  cases f with
  | nil => rfl
  | cons p it rest =>
    have hsplit : itemGood it = true ∧ frameGood rest = true := by
      simpa [frameGood, Bool.and_eq_true] using hgood
    have hit := item_total file_id it c (p + pos) res hsplit.1
    simp only [Converter.frame]
    cases hi : Converter.item c (p + pos) it res file_id with
    | none => rw [hi] at hit; exact absurd hit (by simp)
    | some cr =>
      obtain ⟨c1, res1⟩ := cr
      exact frame_total file_id rest c1 pos res1 hsplit.2

end

theorem documentPages_total (chunk_size file_id : Nat) : ∀ (pages : List Frame),
    (∀ page ∈ pages, frameGood page = true) →
    ∀ (res : List Chunk), (documentPages chunk_size file_id pages res).isSome = true := by
  intro pages
  induction pages with
  | nil => intro _ res; rfl
  | cons page rest ih =>
    intro hall res
    have hf :=
      frame_total file_id page (Converter.new chunk_size) Point.zero res (hall page (by simp))
    simp only [documentPages]
    cases hfe : Converter.frame (Converter.new chunk_size) page Point.zero res file_id with
    | none => rw [hfe] at hf; exact absurd hf (by simp)
    | some cr =>
      obtain ⟨c, res1⟩ := cr
      exact ih (fun pg hpg => hall pg (by simp [hpg])) _

/-- C2 (amended): `document` returns normally on every document in which each
Text item has at least one glyph, and `location` returns normally for every
suggestion within the mapping's bounds (`start ≤ end ≤ length`); inside these
domains resolution failures (detached span, file mismatch, lookup miss) are
silently skipped and glyph/text-length mismatches are repaired with detached
entries, never causing a failure. -/
theorem document_location_total (doc : Document) (chunk_size file_id : Nat)
    (m : Mapping) (suggestion : Suggestion) (source : Source)
    (hdoc : docGood doc = true)
    (hs : suggestion.start ≤ suggestion.stop) (he : suggestion.stop ≤ m.chars.length) :
    (document doc chunk_size file_id).isSome = true ∧
    (m.location suggestion source).isSome = true := by
  constructor
  · unfold document
    exact documentPages_total chunk_size file_id doc.pages
      (fun page hpg => List.all_eq_true.mp hdoc page hpg) []
  · unfold Mapping.location
    rw [if_pos ⟨hs, he⟩]
    rfl

/-- Witness for C2 (amended): the good document `docHi` converts normally and
an in-bounds suggestion resolves normally. -/
theorem document_location_total_witness :
    (document docHi 10 5).isSome = true ∧
    (Mapping.location mapHi ⟨0, 1⟩ ⟨5, fun _ => none⟩).isSome = true :=
  document_location_total docHi 10 5 mapHi ⟨0, 1⟩ ⟨5, fun _ => none⟩
    (by decide) (by decide) (by decide)

/-- Counterexample to C2 as stated: extraction panics (`none`) on a document
whose first Text item has an empty glyph list but sits in next-line position
(the `text.glyphs[0]` index in `Converter::whitespace`), and `location`
panics on an out-of-bounds suggestion (the slice `chars[0..1]` of an empty
mapping) — so neither operation returns normally on every input. -/
theorem document_location_panic_counterexample :
    document docPanic 10 0 = none ∧
    Mapping.location ⟨[]⟩ ⟨0, 1⟩ ⟨0, fun _ => none⟩ = none :=
  ⟨by decide, by decide⟩
